import Mathlib

/-
Verification of the rust-atomic-tracer repository (src/main.rs).

The program reads lines from a kernel trace pipe, classifies each line with
the pattern `.*page=([A-z0-9]+)\s.*`, accumulates counters in a Recording,
and persists the Recording as six key:value lines when the sampling task
stops.  Strings are modelled as List Char; machine integers (u128) as Nat
with an explicit 2 ^ 128 bound where the Rust code can overflow; the
external world (trace-pipe reads, the spawned eboostctl process, file
open / write results, the wall clock) is passed in explicitly.
-/

namespace AtomicTracer

/-- Classification outcome of one trace line (enum ParseResult in src/main.rs). -/
inductive ParseResult
  | Successful
  | Failed
  | Unparsable
deriving DecidableEq, Repr

/-- The character class [A-z0-9] of the pattern in src/main.rs line 114.
[A-z] spans ASCII 0x41..0x7A, which is broader than hexadecimal. -/
def inBracketClass (c : Char) : Bool :=
  (decide ('A' ≤ c) && decide (c ≤ 'z')) || (decide ('0' ≤ c) && decide (c ≤ '9'))

/-- The regex class \s of the regex crate (Unicode White_Space). -/
def isWsChar (c : Char) : Bool :=
  c == ' ' || c == '\t' || c == '\n' || c == '\x0b' || c == '\x0c' || c == '\r' ||
  c.toNat == 0x85 || c.toNat == 0xA0 || c.toNat == 0x1680 ||
  (decide (0x2000 ≤ c.toNat) && decide (c.toNat ≤ 0x200A)) ||
  c.toNat == 0x2028 || c.toNat == 0x2029 || c.toNat == 0x202F ||
  c.toNat == 0x205F || c.toNat == 0x3000

/-- The literal marker token of the pattern: the five characters page=. -/
def pageMarker : List Char := 'p' :: 'a' :: 'g' :: 'e' :: '=' :: []

/-- Attempt to match page=([A-z0-9]+)\s at the head of l, returning the
captured group.  The class [A-z0-9] and \s are disjoint, so the greedy
group [A-z0-9]+ is exactly the maximal class run and the character right
after it must be whitespace. -/
def tryAnchor (l : List Char) : Option (List Char) :=
  if l.take 5 = pageMarker then
    if (l.drop 5).takeWhile inBracketClass = [] then none
    else
      match (l.drop 5).dropWhile inBracketClass with
      | [] => none
      | c :: _ => if isWsChar c then some ((l.drop 5).takeWhile inBracketClass) else none
  else none

/-- Greedy prefix .* : try the anchor at offsets i, i-1, ..., 0 of l, in
that order, returning the first capture found.  This is the backtracking
order of a greedy .* as implemented by leftmost-first regex engines. -/
def tryDown (l : List Char) : Nat → Option (List Char)
  | 0 => tryAnchor l
  | i + 1 =>
    match tryAnchor (l.drop (i + 1)) with
    | some g => some g
    | none => tryDown l i

/-- Group 1 of the leftmost-first match of `.*page=([A-z0-9]+)\s.*` on the
line (line_regex.captures in src/main.rs).  The search tries successive
start positions; at each start position the greedy leading .* (which
cannot cross a newline) prefers the farthest reachable anchor. -/
def line_regex_capture : List Char → Option (List Char)
  | [] => none
  | c :: rest =>
    match tryDown (c :: rest) (((c :: rest).takeWhile (fun ch => ch != '\n')).length) with
    | some g => some g
    | none => line_regex_capture rest

/-- Value of a base-16 digit as accepted by Rust char::to_digit(16). -/
def hexDigitVal? (c : Char) : Option Nat :=
  if '0' ≤ c ∧ c ≤ '9' then some (c.toNat - '0'.toNat)
  else if 'a' ≤ c ∧ c ≤ 'f' then some (c.toNat - 'a'.toNat + 10)
  else if 'A' ≤ c ∧ c ≤ 'F' then some (c.toNat - 'A'.toNat + 10)
  else none

/-- One above u128::MAX: Rust from_str_radix errors past this bound. -/
def U128_LIMIT : Nat := 2 ^ 128

/-- Digit-accumulation loop of u128::from_str_radix(s, 16): any non-digit
or any intermediate value past u128::MAX yields an error. -/
def fromRadixAux : List Char → Nat → Option Nat
  | [], acc => some acc
  | c :: rest, acc =>
    match hexDigitVal? c with
    | none => none
    | some d =>
      if acc * 16 + d < U128_LIMIT then fromRadixAux rest (acc * 16 + d) else none

/-- u128::from_str_radix(s, 16): empty input errors, a single leading +
is allowed, a leading - errors on an unsigned type. -/
def u128_from_str_radix_16 (s : List Char) : Option Nat :=
  match s with
  | [] => none
  | c :: rest =>
    if c = '+' then (if rest = [] then none else fromRadixAux rest 0)
    else if c = '-' then none
    else fromRadixAux (c :: rest) 0

/-- parse_line of src/main.rs lines 54-85: capture group 1, parse it as
base-16 u128, zero means Failed, non-zero means Successful, anything
else is Unparsable. -/
def parse_line (line : List Char) : ParseResult :=
  match line_regex_capture line with
  | none => ParseResult.Unparsable
  | some g =>
    match u128_from_str_radix_16 g with
    | some v => if v = 0 then ParseResult.Failed else ParseResult.Successful
    | none => ParseResult.Unparsable

/-- True when the line contains the literal token page= immediately
followed by at least one base-16 digit (the spec notion of page= followed
by a contiguous hexadecimal run). -/
def containsPageHex : List Char → Bool
  | [] => false
  | c :: rest =>
    (if (c :: rest).take 5 = pageMarker then
      match (c :: rest).drop 5 with
      | [] => false
      | d :: _ => (hexDigitVal? d).isSome
    else false) || containsPageHex rest

/-- The in-memory counters struct (struct Recording in src/main.rs). -/
structure Recording where
  start_time : Nat
  enabled : Bool
  successful_allocations : Nat
  failed_allocations : Nat
  unparsed_allocations : Nat
deriving DecidableEq, Repr

/-- The Recording a sampling task builds at startup: given start timestamp
and boost state, all three counters are zero. -/
def Recording.new (st : Nat) (en : Bool) : Recording :=
  { start_time := st, enabled := en, successful_allocations := 0,
    failed_allocations := 0, unparsed_allocations := 0 }

/-- The match in the recorder loop of src/main.rs lines 128-132: each
classified line increments exactly one counter by one. -/
def Recording.record (r : Recording) (p : ParseResult) : Recording :=
  match p with
  | ParseResult.Successful => { r with successful_allocations := r.successful_allocations + 1 }
  | ParseResult.Failed => { r with failed_allocations := r.failed_allocations + 1 }
  | ParseResult.Unparsable => { r with unparsed_allocations := r.unparsed_allocations + 1 }

/-- Sum of the three counters of a Recording. -/
def countSum (r : Recording) : Nat :=
  r.successful_allocations + r.failed_allocations + r.unparsed_allocations

/-- Decimal digit character. -/
def digitChar (d : Nat) : Char := Char.ofNat (48 + d)

/-- Decimal rendering of an unsigned integer, as Rust Display for u128
writes it into the format string of save_recording_file. -/
def natChars (n : Nat) : List Char :=
  if n = 0 then '0' :: [] else ((Nat.digits 10 n).map digitChar).reverse

/-- Rendering of a bool, as Rust Display writes true or false. -/
def boolChars (b : Bool) : List Char :=
  if b then "true".toList else "false".toList

/-- The exact file content built by save_recording_file (src/main.rs lines
93-101): six key:value lines in the order start, end, enabled, success,
failure, unparsable, each terminated by a newline.  The end value is the
now_ms() reading taken at save time, passed in here as end_ms. -/
def save_recording_string (r : Recording) (end_ms : Nat) : List Char :=
  "start:".toList ++ (natChars r.start_time ++ '\n' :: (
  "end:".toList ++ (natChars end_ms ++ '\n' :: (
  "enabled:".toList ++ (boolChars r.enabled ++ '\n' :: (
  "success:".toList ++ (natChars r.successful_allocations ++ '\n' :: (
  "failure:".toList ++ (natChars r.failed_allocations ++ '\n' :: (
  "unparsable:".toList ++ (natChars r.unparsed_allocations ++ '\n' :: [])))))))))))

/-- Outcome of the OpenOptions open call in save_recording_file. -/
inductive OpenResult
  | created
  | createErr
deriving DecidableEq, Repr

/-- Outcome of the write_all call in save_recording_file. -/
inductive WriteResult
  | completed
  | failed
deriving DecidableEq, Repr

/-- save_recording_file of src/main.rs lines 87-103 with the two
filesystem outcomes passed in: a failed open panics via expect (modelled
as the error branch); the result of write_all on line 102 stands in
statement position and is discarded, so the function returns unit
regardless of the write outcome. -/
def save_recording_file (openR : OpenResult) (writeR : WriteResult)
    (r : Recording) (end_ms : Nat) : Except (List Char) Unit :=
  match openR with
  | OpenResult.createErr => Except.error ("Could not create save file".toList)
  | OpenResult.created =>
    let _content := save_recording_string r end_ms
    match writeR with
    | _ => Except.ok ()

/-- One read_line result delivered to the recorder loop: ok carries the
buffer content after the read (empty for a zero-byte end-of-stream read,
otherwise the line including its newline), err is an I/O error. -/
inductive ReadResult
  | ok (line : List Char)
  | err
deriving DecidableEq, Repr

/-- The while loop of the recorder thread (src/main.rs lines 123-139):
at iteration i it first loads the running flag; if the flag is cleared it
leaves the loop; otherwise it takes the next read result, classifies and
records an ok line and keeps looping, and breaks out of the loop on a
read error without consuming anything further.  The function returns the
Recording held when the loop exits; an exhausted read list stands for a
read that blocks forever, cutting the trace off there. -/
def recorderLoop (flagAt : Nat → Bool) : Nat → List ReadResult → Recording → Recording
  | _, [], r => r
  | i, ReadResult.ok line :: rest, r =>
    if flagAt i then recorderLoop flagAt (i + 1) rest (Recording.record r (parse_line line))
    else r
  | i, ReadResult.err :: _, r =>
    -- flag cleared: exit before the read; flag set: the read errors and breaks
    if flagAt i then r else r

/-- The whole recorder thread closure (src/main.rs lines 115-144): run the
loop from a fresh Recording, then persist exactly one file; the returned
list is the sequence of file contents written by the thread. -/
def recorder_thread (flagAt : Nat → Bool) (reads : List ReadResult)
    (st : Nat) (en : Bool) (end_ms : Nat) : List (List Char) :=
  save_recording_string (recorderLoop flagAt 0 reads (Recording.new st en)) end_ms :: []

/-- Exit information of the spawned eboostctl process, as captured by
std::process::Command::output. -/
structure ProcOutput where
  exit_zero : Bool
deriving DecidableEq, Repr

/-- Result of Command::output: either the process ran to completion (with
whatever exit status) or it could not be launched at all. -/
inductive SpawnOutcome
  | output (o : ProcOutput)
  | launchErr
deriving DecidableEq, Repr

/-- Argument passed to eboostctl by set_eboost. -/
def eboostArg (enabled : Bool) : List Char :=
  if enabled then "--on".toList else "--off".toList

/-- set_eboost of src/main.rs lines 155-161, with the behaviour of the
external process supplied as a function from the argument to the spawn
outcome: a launch failure propagates through the question-mark operator;
a completed process is mapped to unit, its output (exit status included)
discarded. -/
def set_eboost (spawn : List Char → SpawnOutcome) (enabled : Bool) : Except Unit Unit :=
  match spawn (eboostArg enabled) with
  | SpawnOutcome.launchErr => Except.error ()
  | SpawnOutcome.output _ => Except.ok ()

/-- Events of the supervisor loop in main (src/main.rs lines 163-209),
in program order: starting recorder thread number id, clearing its run
flag, joining it, and invoking the boost toggle. -/
inductive SupEvent
  | start (id : Nat)
  | stopRequest (id : Nat)
  | join (id : Nat)
  | toggle (enabled : Bool)
deriving DecidableEq, Repr

/-- The events of one window rotation in the main loop (src/main.rs lines
185-201): flip and set the boost state, clear the run flag of recorder i,
join it, then start recorder i+1. -/
def flipBlock (i : Nat) : List SupEvent :=
  SupEvent.toggle (decide ((i + 1) % 2 = 0)) :: SupEvent.stopRequest i ::
  SupEvent.join i :: SupEvent.start (i + 1) :: []

/-- Full event trace of main for an execution with n window rotations
followed by shutdown: initial toggle to enabled and start of recorder 0,
then n rotation blocks, then the final stop and join of recorder n
(src/main.rs lines 163-209). -/
def supervisorTrace (n : Nat) : List SupEvent :=
  SupEvent.toggle true :: SupEvent.start 0 ::
  ((List.range n).flatMap flipBlock ++ SupEvent.stopRequest n :: SupEvent.join n :: [])

/-- Scan an event trace tracking how many recorder threads are alive:
a start is legal only when none is alive, a join only when one is; the
scan collapses to none as soon as either is violated, and otherwise
returns the number alive at the end. -/
def scanActive : Nat → List SupEvent → Option Nat
  | a, [] => some a
  | a, SupEvent.start _ :: rest => if a = 0 then scanActive 1 rest else none
  | a, SupEvent.join _ :: rest => if a = 1 then scanActive 0 rest else none
  | a, SupEvent.stopRequest _ :: rest => scanActive a rest
  | a, SupEvent.toggle _ :: rest => scanActive a rest

/-- Modelled from the spec: strip an expected literal key from the front
of the text, returning the remainder (used only to state the round-trip
property of the persisted file; the repository itself never re-reads the
files it writes). -/
def eatLiteral : List Char → List Char → Option (List Char)
  | [], s => some s
  | _ :: _, [] => none
  | k :: ks, c :: cs => if c = k then eatLiteral ks cs else none

/-- Modelled from the spec: split off one newline-terminated line. -/
def lineUpToNl : List Char → Option (List Char × List Char)
  | [] => none
  | c :: rest =>
    if c = '\n' then some ([], rest)
    else
      match lineUpToNl rest with
      | none => none
      | some (v, r) => some (c :: v, r)

/-- Decimal digit value of a character. -/
def charDigitVal? (c : Char) : Option Nat :=
  if '0' ≤ c ∧ c ≤ '9' then some (c.toNat - 48) else none

/-- Modelled from the spec: decimal number reading for the round trip. -/
def parseNatAux : List Char → Nat → Option Nat
  | [], acc => some acc
  | c :: rest, acc =>
    match charDigitVal? c with
    | none => none
    | some d => parseNatAux rest (acc * 10 + d)

/-- Modelled from the spec: a non-empty all-decimal value. -/
def parseNatVal (s : List Char) : Option Nat :=
  if s = [] then none else parseNatAux s 0

/-- Modelled from the spec: the two bool renderings. -/
def parseBoolVal (s : List Char) : Option Bool :=
  if s = "true".toList then some true
  else if s = "false".toList then some false
  else none

/-- Modelled from the spec: one key:value line holding a number. -/
def fieldNat (key : List Char) (s : List Char) : Option (Nat × List Char) :=
  match eatLiteral key s with
  | none => none
  | some s1 =>
    match lineUpToNl s1 with
    | none => none
    | some (v, s2) =>
      match parseNatVal v with
      | none => none
      | some n => some (n, s2)

/-- Modelled from the spec: one key:value line holding a bool. -/
def fieldBool (key : List Char) (s : List Char) : Option (Bool × List Char) :=
  match eatLiteral key s with
  | none => none
  | some s1 =>
    match lineUpToNl s1 with
    | none => none
    | some (v, s2) =>
      match parseBoolVal v with
      | none => none
      | some b => some (b, s2)

/-- Modelled from the spec: parse the six key:value lines of a persisted
recording back, demanding the exact key order start, end, enabled,
success, failure, unparsable and nothing after the sixth line. -/
def parse_recording (s : List Char) : Option (Nat × Nat × Bool × Nat × Nat × Nat) :=
  match fieldNat ("start:".toList) s with
  | none => none
  | some (st, s1) =>
    match fieldNat ("end:".toList) s1 with
    | none => none
    | some (en, s2) =>
      match fieldBool ("enabled:".toList) s2 with
      | none => none
      | some (b, s3) =>
        match fieldNat ("success:".toList) s3 with
        | none => none
        | some (sc, s4) =>
          match fieldNat ("failure:".toList) s4 with
          | none => none
          | some (fl, s5) =>
            match fieldNat ("unparsable:".toList) s5 with
            | none => none
            | some (u, s6) =>
              if s6 = [] then some (st, en, b, sc, fl, u) else none

theorem record_countSum (r : Recording) (p : ParseResult) :
    countSum (Recording.record r p) = countSum r + 1 := by
  cases p <;> simp [Recording.record, countSum] <;> omega

theorem foldl_record_countSum (outcomes : List ParseResult) :
    ∀ r : Recording, countSum (outcomes.foldl Recording.record r) = countSum r + outcomes.length := by
  induction outcomes with
  | nil => intro r; simp
  | cons p ps ih =>
    intro r
    simp only [List.foldl_cons, List.length_cons, ih, record_countSum]
    omega

/-- Claim C1: for every input line the classifier decision rule holds: no
capture means Unparsable, a capture that fails base-16 parsing means
Unparsable, a capture parsed to zero means Failed, and a capture parsed
to a non-zero value means Successful. -/
theorem parse_line_decision_rule (l : List Char) :
    (line_regex_capture l = none → parse_line l = ParseResult.Unparsable)
  ∧ (∀ g, line_regex_capture l = some g → u128_from_str_radix_16 g = none →
      parse_line l = ParseResult.Unparsable)
  ∧ (∀ g, line_regex_capture l = some g → u128_from_str_radix_16 g = some 0 →
      parse_line l = ParseResult.Failed)
  ∧ (∀ g v, line_regex_capture l = some g → u128_from_str_radix_16 g = some v → v ≠ 0 →
      parse_line l = ParseResult.Successful) := by
  refine ⟨fun h => ?_, fun g h1 h2 => ?_, fun g h1 h2 => ?_, fun g v h1 h2 hv => ?_⟩
  · simp [parse_line, h]
  · simp [parse_line, h1, h2]
  · simp [parse_line, h1, h2]
  · simp [parse_line, h1, h2, hv]

theorem parse_line_decision_rule_witness :
    parse_line ("... page=1a3f foo=bar".toList) = ParseResult.Successful
  ∧ parse_line ("... page=0 foo=bar".toList) = ParseResult.Failed
  ∧ parse_line ("random garbage with no page field".toList) = ParseResult.Unparsable :=
  ⟨(parse_line_decision_rule _).2.2.2 ('1' :: 'a' :: '3' :: 'f' :: []) 6719
      (by decide) (by decide) (by decide),
   (parse_line_decision_rule _).2.2.1 ('0' :: []) (by decide) (by decide),
   (parse_line_decision_rule _).1 (by decide)⟩

/-- Claim C9: on a line holding the token page= twice, the greedy leading
.* makes the capture come from the last occurrence the pattern can match:
the line x page=0 page=1a is classified Successful from the second token
1a, not Failed from the first token 0. -/
theorem last_occurrence_capture :
    line_regex_capture ("x page=0 page=1a ".toList) = some ('1' :: 'a' :: [])
  ∧ parse_line ("x page=0 page=1a ".toList) = ParseResult.Successful :=
  ⟨by decide, by decide⟩

/-- Claim C3: record increments exactly one counter by one, hence feeding
any sequence of N classified lines to a fresh Recording leaves the three
counters summing to N exactly. -/
theorem counters_sum_to_length :
    (∀ (r : Recording) (p : ParseResult), countSum (Recording.record r p) = countSum r + 1)
  ∧ ∀ (outcomes : List ParseResult) (st : Nat) (en : Bool),
      countSum (outcomes.foldl Recording.record (Recording.new st en)) = outcomes.length := by
  refine ⟨record_countSum, fun outcomes st en => ?_⟩
  rw [foldl_record_countSum]
  simp [countSum, Recording.new]

/-- Claim C10: after the recording file is created, the result of the
content write is discarded: a failed write yields the same unit success
as a completed write, with no error and no distinguishable diagnostic. -/
theorem write_result_discarded (r : Recording) (e : Nat) :
    save_recording_file OpenResult.created WriteResult.failed r e = Except.ok ()
  ∧ save_recording_file OpenResult.created WriteResult.failed r e
      = save_recording_file OpenResult.created WriteResult.completed r e :=
  ⟨rfl, rfl⟩

theorem nonzero_exit_not_error :
    set_eboost (fun _ => SpawnOutcome.output { exit_zero := false }) true ≠ Except.error () := by
  simp [set_eboost]

/-- Claim C6 (amended): a launch failure of the boost-control executable
is surfaced as an error by set_eboost, but a non-zero exit status of a
successfully launched process is not: the process output, exit status
included, is discarded and set_eboost returns success. -/
theorem launch_failure_surfaced (spawn : List Char → SpawnOutcome) (enabled : Bool) :
    (spawn (eboostArg enabled) = SpawnOutcome.launchErr →
      set_eboost spawn enabled = Except.error ())
  ∧ (∀ o, spawn (eboostArg enabled) = SpawnOutcome.output o →
      set_eboost spawn enabled = Except.ok ()) := by
  constructor
  · intro h; simp [set_eboost, h]
  · intro o h; simp [set_eboost, h]

theorem launch_failure_surfaced_witness :
    set_eboost (fun _ => SpawnOutcome.launchErr) true = Except.error () :=
  (launch_failure_surfaced (fun _ => SpawnOutcome.launchErr) true).1 rfl

/-- Claim C8: the empty line produced by a zero-byte end-of-stream read is
classified Unparsable, so the sampling loop increments the unparsed
counter and keeps looping; only an error result from the read ends the
loop early. -/
theorem eof_read_keeps_looping :
    parse_line [] = ParseResult.Unparsable
  ∧ (∀ (flagAt : Nat → Bool) (i : Nat) (rest : List ReadResult) (r : Recording),
      flagAt i = true →
      recorderLoop flagAt i (ReadResult.ok [] :: rest) r
        = recorderLoop flagAt (i + 1) rest (Recording.record r ParseResult.Unparsable))
  ∧ (∀ (flagAt : Nat → Bool) (i : Nat) (rest : List ReadResult) (r : Recording),
      recorderLoop flagAt i (ReadResult.err :: rest) r = r) := by
  refine ⟨rfl, ?_, ?_⟩
  · intro flagAt i rest r h
    simp [recorderLoop, h, parse_line, line_regex_capture]
  · intro flagAt i rest r
    simp [recorderLoop]

theorem eof_read_keeps_looping_witness :
    recorderLoop (fun _ => true) 0 (ReadResult.ok [] :: []) (Recording.new 3 true)
      = recorderLoop (fun _ => true) 1 []
          (Recording.record (Recording.new 3 true) ParseResult.Unparsable) :=
  eof_read_keeps_looping.2.1 (fun _ => true) 0 [] (Recording.new 3 true) rfl

theorem recorderLoop_err_run (flagAt : Nat → Bool) :
    ∀ (pre : List (List Char)) (i : Nat) (rest : List ReadResult) (r : Recording),
      (∀ j, j ≤ pre.length → flagAt (i + j) = true) →
      recorderLoop flagAt i (pre.map ReadResult.ok ++ ReadResult.err :: rest) r
        = pre.foldl (fun acc line => Recording.record acc (parse_line line)) r := by
  intro pre
  induction pre with
  | nil =>
    intro i rest r _
    simp [recorderLoop]
  | cons line pre ih =>
    intro i rest r hflag
    have h0 : flagAt i = true := by simpa using hflag 0 (by simp)
    simp only [List.map_cons, List.cons_append, List.foldl_cons]
    rw [recorderLoop, if_pos h0]
    exact ih (i + 1) rest _ (fun j hj => by
      have := hflag (j + 1) (by simpa using Nat.succ_le_succ hj)
      rwa [show i + (j + 1) = i + 1 + j by omega] at this)

/-- Claim C5: when a read from the trace pipe errors mid-stream after a
prefix of successful reads, the sampling task leaves its loop there,
finalizes, and persists exactly one recording holding the counters
accumulated from the prefix; the thread yields no error value. -/
theorem read_error_graceful_stop (flagAt : Nat → Bool) (pre : List (List Char))
    (rest : List ReadResult) (st : Nat) (en : Bool) (e : Nat)
    (hflag : ∀ j, j ≤ pre.length → flagAt j = true) :
    recorder_thread flagAt (pre.map ReadResult.ok ++ ReadResult.err :: rest) st en e
      = save_recording_string
          (pre.foldl (fun acc line => Recording.record acc (parse_line line))
            (Recording.new st en)) e :: []
  ∧ (recorder_thread flagAt (pre.map ReadResult.ok ++ ReadResult.err :: rest) st en e).length
      = 1 := by
  constructor
  · unfold recorder_thread
    rw [recorderLoop_err_run flagAt pre 0 rest _ (fun j hj => by simpa using hflag j hj)]
  · simp [recorder_thread]

theorem read_error_graceful_stop_witness :
    recorder_thread (fun _ => true) (ReadResult.ok ('a' :: []) :: ReadResult.err :: []) 5 true 9
      = save_recording_string
          (Recording.record (Recording.new 5 true) (parse_line ('a' :: []))) 9 :: [] :=
  (read_error_graceful_stop (fun _ => true) (('a' :: []) :: []) [] 5 true 9
    (fun _ _ => rfl)).1

theorem scanActive_append (xs ys : List SupEvent) :
    ∀ a, scanActive a (xs ++ ys) = (scanActive a xs).bind (fun b => scanActive b ys) := by
  induction xs with
  | nil => intro a; simp [scanActive]
  | cons ev rest ih =>
    intro a
    cases ev <;> simp only [List.cons_append, scanActive] <;> first
      | exact ih a
      | (split <;> simp [ih])

theorem scanActive_flipBlock (i : Nat) : scanActive 1 (flipBlock i) = some 1 := rfl

theorem scanActive_blocks : ∀ n, scanActive 1 ((List.range n).flatMap flipBlock) = some 1 := by
  intro n
  induction n with
  | zero => rfl
  | succ n ih =>
    rw [List.range_succ, List.flatMap_append, scanActive_append]
    simp [ih, scanActive_append, scanActive_flipBlock]

/-- Claim C7: in the supervisor event trace, at most one sampling task is
alive at any instant: the scan that admits a start only when no task is
alive and a join only when one is succeeds on the whole trace for any
number of window rotations, so each new start is strictly preceded by the
join of the previous task. -/
theorem single_sampling_task (n : Nat) : scanActive 0 (supervisorTrace n) = some 0 := by
  rw [supervisorTrace]
  simp [scanActive, scanActive_append, scanActive_blocks n]

theorem tryAnchor_sound {l g : List Char} (h : tryAnchor l = some g) :
    ∃ t, l = pageMarker ++ (g ++ t) ∧ g ≠ [] ∧ ∀ c ∈ g, inBracketClass c = true := by
  unfold tryAnchor at h
  by_cases h5 : l.take 5 = pageMarker
  case neg => simp [h5] at h
  rw [if_pos h5] at h
  by_cases hrun : (l.drop 5).takeWhile inBracketClass = []
  · simp [hrun] at h
  rw [if_neg hrun] at h
  cases hdw : (l.drop 5).dropWhile inBracketClass with
  | nil => rw [hdw] at h; simp at h
  | cons c cs =>
    simp only [hdw] at h
    by_cases hws : isWsChar c = true
    · rw [if_pos hws] at h
      have hg : g = (l.drop 5).takeWhile inBracketClass := (Option.some.inj h).symm
      refine ⟨(l.drop 5).dropWhile inBracketClass, ?_, ?_, ?_⟩
      · conv_lhs => rw [← List.take_append_drop 5 l]
        rw [h5, hg, List.takeWhile_append_dropWhile]
      · rw [hg]; exact hrun
      · intro x hx; rw [hg] at hx; exact List.mem_takeWhile_imp hx
    · rw [if_neg hws] at h; simp at h

theorem tryDown_sound {l g : List Char} : ∀ {i}, tryDown l i = some g →
    ∃ k, tryAnchor (l.drop k) = some g := by
  intro i
  induction i with
  | zero => intro h; exact ⟨0, by simpa using h⟩
  | succ i ih =>
    intro h
    simp only [tryDown] at h
    cases ha : tryAnchor (l.drop (i + 1)) with
    | some g' =>
      simp only [ha] at h
      exact ⟨i + 1, by rw [ha, h]⟩
    | none => simp only [ha] at h; exact ih h

theorem capture_sound : ∀ {l g : List Char}, line_regex_capture l = some g →
    ∃ a t, l = a ++ (pageMarker ++ (g ++ t)) ∧ g ≠ [] ∧ ∀ c ∈ g, inBracketClass c = true := by
  intro l
  induction l with
  | nil => intro g h; simp [line_regex_capture] at h
  | cons c rest ih =>
    intro g h
    simp only [line_regex_capture] at h
    cases htd :
        tryDown (c :: rest) (((c :: rest).takeWhile (fun ch => ch != '\n')).length) with
    | some g' =>
      rw [htd] at h
      have hg : g' = g := Option.some.inj h
      subst hg
      obtain ⟨k, hk⟩ := tryDown_sound htd
      obtain ⟨t, heq, hne, hcls⟩ := tryAnchor_sound hk
      refine ⟨(c :: rest).take k, t, ?_, hne, hcls⟩
      conv_lhs => rw [← List.take_append_drop k (c :: rest)]
      rw [heq]
    | none =>
      rw [htd] at h
      obtain ⟨a, t, heq, hne, hcls⟩ := ih h
      exact ⟨c :: a, t, by simp [heq], hne, hcls⟩

theorem parse_head_hex {g : List Char} {v : Nat}
    (hp : u128_from_str_radix_16 g = some v)
    (hcls : ∀ c ∈ g, inBracketClass c = true) :
    ∃ c g', g = c :: g' ∧ (hexDigitVal? c).isSome = true := by
  cases g with
  | nil => simp [u128_from_str_radix_16] at hp
  | cons c g' =>
    refine ⟨c, g', rfl, ?_⟩
    have hc : inBracketClass c = true := hcls c (by simp)
    have hp' : (if c = '+' then (if g' = [] then none else fromRadixAux g' 0)
        else if c = '-' then none else fromRadixAux (c :: g') 0) = some v := hp
    by_cases hplus : c = '+'
    · subst hplus; exact absurd hc (by decide)
    by_cases hminus : c = '-'
    · subst hminus; exact absurd hc (by decide)
    rw [if_neg hplus, if_neg hminus] at hp'
    cases hd : hexDigitVal? c with
    | none => simp [fromRadixAux, hd] at hp'
    | some d => simp [hd]

theorem containsPageHex_of_decomp : ∀ (a : List Char) (c : Char) (b : List Char),
    (hexDigitVal? c).isSome = true →
    containsPageHex (a ++ ('p' :: 'a' :: 'g' :: 'e' :: '=' :: c :: b)) = true := by
  intro a
  induction a with
  | nil =>
    intro c b hc
    simp [containsPageHex, pageMarker, hc]
  | cons x a ih =>
    intro c b hc
    simp only [List.cons_append, containsPageHex]
    simp
    exact Or.inr (ih c b hc)

/-- Claim C2: every line that nowhere holds the literal token page=
followed by a base-16 digit is classified Unparsable; in particular the
line with page=zzzz is Unparsable, even though the pattern class [A-z0-9]
is broader than hexadecimal and does capture zzzz. -/
theorem no_page_hex_unparsable :
    (∀ l : List Char, containsPageHex l = false → parse_line l = ParseResult.Unparsable)
  ∧ line_regex_capture ("... page=zzzz ...".toList) = some ('z' :: 'z' :: 'z' :: 'z' :: [])
  ∧ parse_line ("... page=zzzz ...".toList) = ParseResult.Unparsable := by
  refine ⟨?_, by decide, by decide⟩
  intro l hfalse
  cases hc : line_regex_capture l with
  | none => simp [parse_line, hc]
  | some g =>
    cases hp : u128_from_str_radix_16 g with
    | none => simp [parse_line, hc, hp]
    | some v =>
      exfalso
      obtain ⟨a, t, heq, _, hcls⟩ := capture_sound hc
      obtain ⟨ch, g', hg, hhex⟩ := parse_head_hex hp hcls
      subst hg
      have htrue : containsPageHex l = true := by
        rw [heq]
        have := containsPageHex_of_decomp a ch (g' ++ t) hhex
        simpa [pageMarker] using this
      rw [hfalse] at htrue
      exact absurd htrue (by decide)

theorem no_page_hex_unparsable_witness :
    containsPageHex ("hello world".toList) = false
  ∧ parse_line ("hello world".toList) = ParseResult.Unparsable :=
  ⟨by decide, no_page_hex_unparsable.1 ("hello world".toList) (by decide)⟩

theorem eatLiteral_append (k : List Char) : ∀ s, eatLiteral k (k ++ s) = some s := by
  induction k with
  | nil => intro s; rfl
  | cons c k ih => intro s; simp [eatLiteral, ih]

theorem lineUpToNl_append (v : List Char) (r : List Char) (h : ∀ c ∈ v, c ≠ '\n') :
    lineUpToNl (v ++ '\n' :: r) = some (v, r) := by
  induction v with
  | nil => simp [lineUpToNl]
  | cons c v ih =>
    have hc : c ≠ '\n' := h c (by simp)
    simp [lineUpToNl, hc, ih (fun x hx => h x (by simp [hx]))]

theorem charDigitVal_digitChar {d : Nat} (h : d < 10) : charDigitVal? (digitChar d) = some d := by
  interval_cases d <;> decide

theorem digitChar_ne_nl {d : Nat} (h : d < 10) : digitChar d ≠ '\n' := by
  interval_cases d <;> decide

theorem natChars_ne_nl (n : Nat) : ∀ c ∈ natChars n, c ≠ '\n' := by
  intro c hc
  unfold natChars at hc
  split at hc
  · simp at hc; subst hc; decide
  · simp only [List.mem_reverse, List.mem_map] at hc
    obtain ⟨d, hd, rfl⟩ := hc
    exact digitChar_ne_nl (Nat.digits_lt_base (by norm_num) hd)

theorem boolChars_ne_nl (b : Bool) : ∀ c ∈ boolChars b, c ≠ '\n' := by
  cases b <;> decide

theorem parseNatAux_append (xs ys : List Char) :
    ∀ a, parseNatAux (xs ++ ys) a = (parseNatAux xs a).bind (fun b => parseNatAux ys b) := by
  induction xs with
  | nil => intro a; simp [parseNatAux]
  | cons c xs ih =>
    intro a
    cases hc : charDigitVal? c <;> simp [parseNatAux, hc, ih]

theorem parseNatAux_digits : ∀ (L : List Nat), (∀ d ∈ L, d < 10) →
    ∀ a, parseNatAux ((L.map digitChar).reverse) a
      = some (a * 10 ^ L.length + Nat.ofDigits 10 L) := by
  intro L
  induction L with
  | nil => intro _ a; simp [parseNatAux]
  | cons d L ih =>
    intro hL a
    have hd : d < 10 := hL d (by simp)
    rw [List.map_cons, List.reverse_cons, parseNatAux_append,
      ih (fun x hx => hL x (by simp [hx])) a]
    simp only [Option.some_bind, parseNatAux, charDigitVal_digitChar hd, Nat.ofDigits_cons,
      List.length_cons, Option.some.injEq]
    ring

theorem parseNatVal_natChars (n : Nat) : parseNatVal (natChars n) = some n := by
  by_cases hn : n = 0
  · subst hn; decide
  · have hne : ((Nat.digits 10 n).map digitChar).reverse ≠ [] := by
      simp [Nat.digits_ne_nil_iff_ne_zero.mpr hn]
    unfold parseNatVal natChars
    rw [if_neg hn, if_neg hne,
      parseNatAux_digits (Nat.digits 10 n)
        (fun d hd => Nat.digits_lt_base (by norm_num) hd) 0]
    simp [Nat.ofDigits_digits]

theorem parseBoolVal_boolChars (b : Bool) : parseBoolVal (boolChars b) = some b := by
  cases b <;> decide

theorem fieldNat_round (key : List Char) (n : Nat) (rest : List Char) :
    fieldNat key (key ++ (natChars n ++ '\n' :: rest)) = some (n, rest) := by
  simp only [fieldNat, eatLiteral_append, lineUpToNl_append _ rest (natChars_ne_nl n),
    parseNatVal_natChars]

theorem fieldBool_round (key : List Char) (b : Bool) (rest : List Char) :
    fieldBool key (key ++ (boolChars b ++ '\n' :: rest)) = some (b, rest) := by
  simp only [fieldBool, eatLiteral_append, lineUpToNl_append _ rest (boolChars_ne_nl b),
    parseBoolVal_boolChars]

theorem count_nl_natChars (n : Nat) : List.count '\n' (natChars n) = 0 :=
  List.count_eq_zero.mpr (fun h => natChars_ne_nl n _ h rfl)

theorem count_nl_boolChars (b : Bool) : List.count '\n' (boolChars b) = 0 := by
  cases b <;> decide

/-- Claim C4: the persisted recording is exactly six key:value lines in
the fixed order start, end, enabled, success, failure, unparsable;
parsing them back recovers the exact counters, enabled state and
timestamps recorded; and, the wall clock reading at save time being no
earlier than the one taken at task start, the end timestamp is at least
the start timestamp. -/
theorem recording_file_round_trip (r : Recording) (e : Nat) (hclock : r.start_time ≤ e) :
    List.count '\n' (save_recording_string r e) = 6
  ∧ parse_recording (save_recording_string r e)
      = some (r.start_time, e, r.enabled, r.successful_allocations,
          r.failed_allocations, r.unparsed_allocations)
  ∧ (∀ st en b sc fl u,
      parse_recording (save_recording_string r e) = some (st, en, b, sc, fl, u) → st ≤ en) := by
  have hparse : parse_recording (save_recording_string r e)
      = some (r.start_time, e, r.enabled, r.successful_allocations,
          r.failed_allocations, r.unparsed_allocations) := by
    simp only [save_recording_string, parse_recording, fieldNat_round, fieldBool_round,
      if_pos]
  refine ⟨?_, hparse, ?_⟩
  · have k1 : List.count '\n' ("start:".toList) = 0 := by decide
    have k2 : List.count '\n' ("end:".toList) = 0 := by decide
    have k3 : List.count '\n' ("enabled:".toList) = 0 := by decide
    have k4 : List.count '\n' ("success:".toList) = 0 := by decide
    have k5 : List.count '\n' ("failure:".toList) = 0 := by decide
    have k6 : List.count '\n' ("unparsable:".toList) = 0 := by decide
    simp [save_recording_string, List.count_append, List.count_cons_self,
      count_nl_natChars, count_nl_boolChars, k1, k2, k3, k4, k5, k6]
  · intro st en b sc fl u h
    rw [hparse] at h
    simp only [Option.some.injEq, Prod.mk.injEq] at h
    obtain ⟨h1, h2, -⟩ := h
    omega

theorem recording_file_round_trip_witness :
    (12 : Nat) ≤ 34
  ∧ parse_recording (save_recording_string (Recording.mk 12 true 3 4 5) 34)
      = some (12, 34, true, 3, 4, 5) :=
  ⟨by decide, (recording_file_round_trip (Recording.mk 12 true 3 4 5) 34 (by decide)).2.1⟩

end AtomicTracer
